import Mathlib

/-
Verification of the streaming chat client in `main.go` (a Bubble Tea TUI for
the Gemini API).  The development shallowly embeds the event-loop core of the
program: the `keyEnter`, `streamMsg` and `errMsg` handlers of `model.Update`,
the per-prompt producer goroutine that pushes text fragments into an unbuffered
channel, and the Bubble Tea command mechanics that the program relies on
(a `tea.Cmd` returned from `Update` runs in its own goroutine and delivers its
message when it finishes; a `nil` message is dropped).

Modelling conventions:
  * lipgloss style rendering is treated as the identity on strings, so the
    user entry for prompt `p` is the string `"? " ++ p` and a fresh assistant
    entry is seeded with `"> "` (this matches the transcript notation used by
    the program's own scenario `["? 2+2?", "> 4"]`).
  * A Go runtime panic (out-of-range index, nil dereference) is modelled as
    `Option.none`.
  * The producer goroutine of a prompt is summarised in the loop state by the
    list of fragments it has not yet managed to send (`pending`); a blocked
    `readPart` command is an element of `outstanding` remembering which
    channel (stream id) it reads and which target index its closure captured.
-/

namespace Gemini

/-- One part of a `genai.Content`; only the `Text` field is used by the
program (`chunk.Candidates[0].Content.Parts[0].Text`). -/
structure ContentPart where
  text : String
deriving DecidableEq

/-- A `genai.Content`: a role string plus a list of parts.  Used both for the
chat history (`m.history`) and for candidate content inside stream chunks. -/
structure Content where
  role : String
  parts : List ContentPart
deriving DecidableEq

/-- The role string `genai.RoleUser`. -/
def RoleUser : String := "user"

/-- The role string `genai.RoleModel`. -/
def RoleModel : String := "model"

/-- The translation of `genai.NewContentFromText(text, role)`. -/
def NewContentFromText (text role : String) : Content :=
  ⟨role, [⟨text⟩]⟩

/-- A candidate inside a response chunk; its `Content` field is a pointer in
Go and may be nil, hence `Option`. -/
structure Candidate where
  content : Option Content
deriving DecidableEq

/-- A streamed response chunk (`genai.GenerateContentResponse`), reduced to
the one field the program reads: its candidate list. -/
structure Chunk where
  candidates : List Candidate
deriving DecidableEq

/-- One element yielded by the `iter.Seq2[*GenerateContentResponse, error]`
returned by `SendMessageStream`: a possibly-nil chunk pointer together with a
possibly-nil error value.  The program writes `for chunk, _ := range stream`,
discarding the error component. -/
structure StreamItem where
  chunk : Option Chunk
  err : Option String
deriving DecidableEq

/-- The text the producer goroutine extracts from a non-nil chunk:
`chunk.Candidates[0].Content.Parts[0].Text` (main.go line 202).  Each of the
three projections can fail at runtime — `Candidates[0]` and `Parts[0]` panic
on an empty slice and `.Content` may be a nil pointer — so a missing field
yields `none`, modelling the Go panic. -/
def chunkText (c : Chunk) : Option String :=
  match c.candidates with
  | [] => none
  | cand :: _ =>
    match cand.content with
    | none => none
    | some ct =>
      match ct.parts with
      | [] => none
      | p :: _ => some p.text

/-- The fragment sequence sent into the channel by the producer goroutine
(main.go lines 196-206): nil chunks are skipped by `if chunk == nil`,
every other chunk has its text extracted by `chunkText` and sent, and the
error component of the iterator is never inspected.  A `none` result models
the goroutine panicking (which kills the whole process), in which case no
further fragment is sent. -/
def producerParts : List StreamItem → Option (List String)
  | [] => some []
  | it :: rest =>
    match it.chunk with
    | none => producerParts rest
    | some c =>
      match chunkText c with
      | none => none
      | some t => (producerParts rest).map (t :: ·)

/-- A chunk is harmless to the producer when it is nil (skipped) or its text
is extractable without a panic. -/
def safeItem (it : StreamItem) : Bool :=
  match it.chunk with
  | none => true
  | some c => (chunkText c).isSome

/-- The fragments that survive the producer loop: the extracted text of every
non-nil chunk (meaningful when all items are `safeItem`). -/
def itemTexts (items : List StreamItem) : List String :=
  items.filterMap (fun it => it.chunk.bind chunkText)

/-- Convenience: a stream item carrying a well-formed chunk whose first
candidate's first part has text `s`. -/
def textItem (s : String) : StreamItem :=
  ⟨some ⟨[⟨some ⟨RoleModel, [⟨s⟩]⟩⟩]⟩, none⟩

/-- Convenience: a nil chunk pointer with no error. -/
def nilItem : StreamItem :=
  ⟨none, none⟩

/-- A blocked `readPart` command: the closure created in `keyEnter`
(main.go lines 208-215) captures the `parts` channel of one stream and the
target index computed at submission time.  `stream` identifies the channel,
`index` is the captured target index. -/
structure ReadHandle where
  stream : Nat
  index : Nat
deriving DecidableEq

/-- The event-loop state.  `display` and `history` are the fields of the Go
`model` struct the claims are about; `next` is `m.next` (the stored
`readPart` command); `outstanding` is the multiset of `readPart` commands
that Bubble Tea is currently running (each blocked on its channel receive);
`pending` maps each stream id to the fragments its producer has not yet sent
(the producer closes the channel once this list is exhausted). -/
structure LoopState where
  display : List String
  history : List Content
  next : Option ReadHandle
  outstanding : List ReadHandle
  pending : List (List String)
deriving DecidableEq

/-- The state Bubble Tea starts the program with: `initialModel` in main.go
builds an empty display list, an empty history and a nil `next` command. -/
def initialModel : LoopState :=
  ⟨[], [], none, [], []⟩

/-- The display mutation performed by the `streamMsg` handler (main.go lines
224-227); the design documents call this operation `extendEntry`.  If the
message's index equals the current display length a fresh assistant entry
`"> "` is appended first; then `m.display[msg.index] += msg.part` extends the
entry in place.  When the index exceeds the display length the Go indexing
expression panics (index out of range), modelled by `none`. -/
def extendEntry (display : List String) (index : Nat) (part : String) :
    Option (List String) :=
  let d := if index = display.length then display ++ ["> "] else display
  match d[index]? with
  | some s => some (d.set index (s ++ part))
  | none => none

/-- The `keyEnter` handler (main.go lines 188-221).  It appends the prompt to
the chat history as a user `Content`, appends the rendered `"? " ++ prompt`
user entry to the display, captures `index := len(m.display)` after that
append, creates a fresh channel and producer goroutine (a new stream id whose
eventual fragment sends are `frags`), stores the new `readPart` closure in
`m.next`, and returns it as the command to run — adding one blocked read on
the new channel to the outstanding commands.  Nothing disturbs commands that
are already outstanding. -/
def keyEnter (st : LoopState) (prompt : String) (frags : List String) :
    LoopState :=
  let display := st.display ++ ["? " ++ prompt]
  let h : ReadHandle := ⟨st.pending.length, display.length⟩
  { display := display
    history := st.history ++ [NewContentFromText prompt RoleUser]
    next := some h
    outstanding := st.outstanding ++ [h]
    pending := st.pending ++ [frags] }

/-- Completion of the `k`-th outstanding `readPart` command.  The receive on
its captured channel resolves either to the producer's next unsent fragment
or — once `pending` for that stream is empty — to the channel close, in which
case `readPart` returns a nil message that Bubble Tea drops (no handler runs,
no new command is issued).  On a fragment, the `streamMsg` handler runs:
`extendEntry` mutates the display at the captured index and the handler
returns `m.next` — the currently stored read command, whatever stream it
belongs to — which becomes one more outstanding command (main.go lines
223-235).  `none` models a Go panic or an event that cannot occur (no such
outstanding command, unknown stream id). -/
def deliverStep (st : LoopState) (k : Nat) : Option LoopState :=
  match st.outstanding[k]? with
  | none => none
  | some h =>
    match st.pending[h.stream]? with
    | none => none
    | some [] =>
      some { st with outstanding := st.outstanding.eraseIdx k }
    | some (f :: rest) =>
      match extendEntry st.display h.index f with
      | none => none
      | some d =>
        some { st with
          display := d
          outstanding := st.outstanding.eraseIdx k ++ st.next.toList
          pending := st.pending.set h.stream rest }

/-- An event the loop can process: an enter-key submission (with the fragment
sequence the new prompt's producer will eventually send), the completion of
the `k`-th outstanding read, or an `errMsg`. -/
inductive Event
  | submit (prompt : String) (frags : List String)
  | deliver (k : Nat)
  | errMsg
deriving DecidableEq

/-- One step of `model.Update` (main.go lines 126-153) on the relevant
messages.  The `errMsg` handler (lines 170-173) is `return m, nil`: it leaves
the model unchanged, appends nothing, and issues no command — in particular
the program keeps running. -/
def stepE (st : LoopState) : Event → Option LoopState
  | .submit prompt frags => some (keyEnter st prompt frags)
  | .deliver k => deliverStep st k
  | .errMsg => some st

/-- Runs a sequence of events from a state; `none` as soon as a step models a
panic. -/
def run (st : LoopState) : List Event → Option LoopState
  | [] => some st
  | ev :: evs =>
    match stepE st ev with
    | none => none
    | some st' => run st' evs

/-- All read commands the loop can ever re-issue or is currently running:
the outstanding ones plus the stored `m.next`. -/
def handlesOf (st : LoopState) : List ReadHandle :=
  st.outstanding ++ st.next.toList

/-- Concatenation of a fragment list in delivery order. -/
def concatFrags : List String → String
  | [] => ""
  | f :: r => f ++ concatFrags r

/-- No read command for stream `s` is outstanding or stored: the loop has
fully disengaged from that stream's channel. -/
def noHandleFor (s : Nat) (st : LoopState) : Prop :=
  (∀ h ∈ st.outstanding, h.stream ≠ s) ∧ (∀ h ∈ st.next.toList, h.stream ≠ s)

instance (s : Nat) (st : LoopState) : Decidable (noHandleFor s st) := by
  unfold noHandleFor
  infer_instance

/-- Stream `s` is starved in `st`: no continuation of the run ever consumes
another of its pending fragments, i.e. its producer goroutine stays blocked
on its channel send forever. -/
def blockedForever (s : Nat) (st : LoopState) : Prop :=
  ∀ evs st', run st evs = some st' → st'.pending[s]? = st.pending[s]?

/-- Checks that every submission in `evs` happens at a moment with no
outstanding read command (no supersession of an in-flight stream). -/
def noOverlap (st : LoopState) : List Event → Bool
  | [] => true
  | ev :: evs =>
    (match ev with
      | .submit _ _ => st.outstanding.isEmpty
      | _ => true) &&
    (match stepE st ev with
      | none => true
      | some st' => noOverlap st' evs)

/-- The user-role `Content` values appended to the chat history by the
submissions in an event list, in order. -/
def histOf (evs : List Event) : List Content :=
  evs.filterMap (fun ev =>
    match ev with
    | .submit p _ => some (NewContentFromText p RoleUser)
    | _ => none)

/-- The index/stream bookkeeping invariant of every reachable loop state:
every read command the loop can run or re-issue has a target index that is at
most the current display length and refers to an existing stream, and read
commands of distinct streams carry distinct target indices. -/
def Inv (st : LoopState) : Prop :=
  (∀ h ∈ handlesOf st, h.index ≤ st.display.length ∧
    h.stream < st.pending.length) ∧
  (∀ h ∈ handlesOf st, ∀ h' ∈ handlesOf st,
    h.stream ≠ h'.stream → h.index ≠ h'.index)

theorem extendEntry_lt {d : List String} {i : Nat} {p : String}
    (h : i < d.length) :
    extendEntry d i p = some (d.set i (d[i] ++ p)) := by
  simp only [extendEntry]
  rw [if_neg (Nat.ne_of_lt h), List.getElem?_eq_getElem h]

theorem extendEntry_eq_len (d : List String) (p : String) :
    extendEntry d d.length p = some (d ++ ["> " ++ p]) := by
  simp only [extendEntry, eq_self_iff_true, if_true]
  rw [List.getElem?_concat_length]
  show some ((d ++ ["> "]).set d.length ("> " ++ p)) = some (d ++ ["> " ++ p])
  rw [List.set_append_right _ _ (Nat.le_refl _)]
  simp

theorem extendEntry_gt {d : List String} {i : Nat} {p : String}
    (h : d.length < i) :
    extendEntry d i p = none := by
  have hne : i ≠ d.length := by omega
  simp only [extendEntry]
  rw [if_neg hne, List.getElem?_eq_none (by omega)]

theorem extendEntry_length {d d' : List String} {i : Nat} {p : String}
    (h : extendEntry d i p = some d') : d.length ≤ d'.length := by
  by_cases hlt : i < d.length
  · rw [extendEntry_lt hlt] at h
    cases h
    simp
  · by_cases heq : i = d.length
    · subst heq
      rw [extendEntry_eq_len] at h
      cases h
      simp
    · rw [extendEntry_gt (by omega)] at h
      cases h

theorem extendEntry_getElem?_ne {d d' : List String} {i j : Nat} {p : String}
    (he : extendEntry d i p = some d') (hij : j ≠ i) : d'[j]? = d[j]? := by
  by_cases hlt : i < d.length
  · rw [extendEntry_lt hlt] at he
    cases he
    exact List.getElem?_set_ne (Ne.symm hij)
  · by_cases heq : i = d.length
    · subst heq
      rw [extendEntry_eq_len] at he
      cases he
      by_cases hj : j < d.length
      · exact List.getElem?_append_left hj
      · have h1 : d[j]? = none := List.getElem?_eq_none (by omega)
        have h2 : (d ++ ["> " ++ p])[j]? = none := by
          refine List.getElem?_eq_none ?_
          simp only [List.length_append, List.length_cons, List.length_nil]
          omega
        rw [h1, h2]
    · rw [extendEntry_gt (by omega)] at he
      cases he

theorem extendEntry_prefix {d d' : List String} {i j : Nat} {s p : String}
    (he : extendEntry d i p = some d') (hj : d[j]? = some s) :
    ∃ u, d'[j]? = some (s ++ u) := by
  by_cases hij : j = i
  · subst hij
    have hlt : j < d.length := by
      rcases List.getElem?_eq_some_iff.mp hj with ⟨hw, _⟩
      exact hw
    rw [extendEntry_lt hlt] at he
    cases he
    refine ⟨p, ?_⟩
    rw [List.getElem?_set_self hlt]
    have hs : d[j] = s := by
      rcases List.getElem?_eq_some_iff.mp hj with ⟨hw, hv⟩
      exact hv
    rw [hs]
  · exact ⟨"", by rw [extendEntry_getElem?_ne he hij, hj, String.append_empty]⟩

theorem deliverStep_some {st st' : LoopState} {k : Nat}
    (hs : deliverStep st k = some st') :
    ∃ h, st.outstanding[k]? = some h ∧
      ((st.pending[h.stream]? = some [] ∧
        st' = { st with outstanding := st.outstanding.eraseIdx k }) ∨
       (∃ f rest d, st.pending[h.stream]? = some (f :: rest) ∧
        extendEntry st.display h.index f = some d ∧
        st' = { st with
          display := d
          outstanding := st.outstanding.eraseIdx k ++ st.next.toList
          pending := st.pending.set h.stream rest })) := by
  unfold deliverStep at hs
  split at hs
  · cases hs
  next h hh =>
    split at hs
    · cases hs
    next hp =>
      cases hs
      exact ⟨h, hh, Or.inl ⟨hp, rfl⟩⟩
    next f rest hp =>
      split at hs
      · cases hs
      next d hd =>
        cases hs
        exact ⟨h, hh, Or.inr ⟨f, rest, d, hp, hd, rfl⟩⟩

theorem deliverStep_frame {st st' : LoopState} {k : Nat}
    (hs : deliverStep st k = some st') :
    st'.history = st.history ∧ st'.next = st.next ∧
      st.display.length ≤ st'.display.length ∧
      st'.pending.length = st.pending.length := by
  rcases deliverStep_some hs with ⟨h, _, ⟨_, he⟩ | ⟨f, rest, d, _, hd, he⟩⟩
  · subst he
    exact ⟨rfl, rfl, Nat.le_refl _, rfl⟩
  · subst he
    exact ⟨rfl, rfl, extendEntry_length hd, by simp⟩

theorem deliverStep_handles {st st' : LoopState} {k : Nat}
    (hs : deliverStep st k = some st') :
    ∀ x ∈ handlesOf st', x ∈ handlesOf st := by
  rcases deliverStep_some hs with ⟨h, _, ⟨_, he⟩ | ⟨f, rest, d, _, _, he⟩⟩ <;>
    subst he <;>
    intro x hx <;>
    simp only [handlesOf, List.mem_append] at hx ⊢
  · rcases hx with hx | hx
    · exact Or.inl ((List.eraseIdx_sublist _ _).subset hx)
    · exact Or.inr hx
  · rcases hx with (hx | hx) | hx
    · exact Or.inl ((List.eraseIdx_sublist _ _).subset hx)
    · exact Or.inr hx
    · exact Or.inr hx

theorem mem_handles_keyEnter {st : LoopState} {p : String} {fr : List String}
    {h : ReadHandle} :
    h ∈ handlesOf (keyEnter st p fr) ↔
      h ∈ st.outstanding ∨ h = ⟨st.pending.length, st.display.length + 1⟩ := by
  simp only [handlesOf, keyEnter, List.length_append, List.length_cons,
    List.length_nil, Option.toList_some, List.mem_append, List.mem_cons,
    List.not_mem_nil, or_false]
  tauto

theorem keyEnter_inv {st : LoopState} (hInv : Inv st) (p : String)
    (fr : List String) : Inv (keyEnter st p fr) := by
  obtain ⟨h1, h2⟩ := hInv
  have hsub : ∀ x ∈ st.outstanding, x ∈ handlesOf st := by
    intro x hx
    exact List.mem_append.mpr (Or.inl hx)
  constructor
  · intro h hh
    rcases mem_handles_keyEnter.mp hh with hh | hh
    · obtain ⟨hi, hs⟩ := h1 h (hsub _ hh)
      constructor
      · simp only [keyEnter, List.length_append, List.length_cons,
          List.length_nil]
        omega
      · simp only [keyEnter, List.length_append, List.length_cons,
          List.length_nil]
        omega
    · subst hh
      constructor
      · simp [keyEnter]
      · simp [keyEnter]
  · intro h hh h' hh' hne
    rcases mem_handles_keyEnter.mp hh with hh | hh <;>
      rcases mem_handles_keyEnter.mp hh' with hh' | hh'
    · exact h2 h (hsub _ hh) h' (hsub _ hh') hne
    · subst hh'
      obtain ⟨hi, _⟩ := h1 h (hsub _ hh)
      simp only []
      omega
    · subst hh
      obtain ⟨hi, _⟩ := h1 h' (hsub _ hh')
      simp only []
      omega
    · subst hh
      subst hh'
      exact absurd rfl hne

theorem stepE_inv {st st' : LoopState} {ev : Event} (hInv : Inv st)
    (hs : stepE st ev = some st') : Inv st' := by
  cases ev with
  | submit p fr =>
    cases hs
    exact keyEnter_inv hInv p fr
  | deliver k =>
    obtain ⟨hhist, hnext, hdisp, hpend⟩ := deliverStep_frame hs
    have hsub := deliverStep_handles hs
    obtain ⟨h1, h2⟩ := hInv
    constructor
    · intro h hh
      obtain ⟨hi, hstr⟩ := h1 h (hsub _ hh)
      exact ⟨Nat.le_trans hi hdisp, hpend ▸ hstr⟩
    · intro h hh h' hh' hne
      exact h2 h (hsub _ hh) h' (hsub _ hh') hne
  | errMsg =>
    cases hs
    exact hInv

theorem run_inv {evs : List Event} {st st' : LoopState} (hInv : Inv st)
    (hr : run st evs = some st') : Inv st' := by
  induction evs generalizing st with
  | nil =>
    cases hr
    exact hInv
  | cons ev evs ih =>
    simp only [run] at hr
    split at hr
    · cases hr
    next st1 hstep =>
      exact ih (stepE_inv hInv hstep) hr

theorem inv_initialModel : Inv initialModel := by
  constructor <;> intro h hh <;> simp [handlesOf, initialModel] at hh

theorem inv_of_run {evs : List Event} {st : LoopState}
    (hr : run initialModel evs = some st) : Inv st :=
  run_inv inv_initialModel hr

theorem set_self_getElem {l : List String} {i : Nat} (h : i < l.length) :
    l.set i l[i] = l := by
  apply List.ext_getElem?
  intro n
  by_cases hn : i = n
  · subst hn
    rw [List.getElem?_set_self h, List.getElem?_eq_getElem h]
  · exact List.getElem?_set_ne hn

theorem stepE_noHandleFor {s : Nat} {st st' : LoopState} {ev : Event}
    (hn : noHandleFor s st) (hlt : s < st.pending.length)
    (hs : stepE st ev = some st') :
    noHandleFor s st' ∧ s < st'.pending.length ∧
      st'.pending[s]? = st.pending[s]? := by
  obtain ⟨hno, hnn⟩ := hn
  cases ev with
  | submit p fr =>
    cases hs
    refine ⟨⟨?_, ?_⟩, ?_, ?_⟩
    · intro h hh
      simp only [keyEnter, List.mem_append, List.mem_cons,
        List.not_mem_nil, or_false] at hh
      rcases hh with hh | hh
      · exact hno h hh
      · subst hh
        simp only []
        omega
    · intro h hh
      simp only [keyEnter, Option.toList_some, List.mem_cons,
        List.not_mem_nil, or_false] at hh
      subst hh
      simp only []
      omega
    · simp only [keyEnter, List.length_append, List.length_cons,
        List.length_nil]
      omega
    · exact List.getElem?_append_left hlt
  | deliver k =>
    rcases deliverStep_some hs with ⟨h, hh, ⟨_, he⟩ | ⟨f, rest, d, hp, hd, he⟩⟩
    · subst he
      refine ⟨⟨?_, hnn⟩, hlt, rfl⟩
      intro x hx
      exact hno x ((List.eraseIdx_sublist _ _).subset hx)
    · subst he
      have hhs : h.stream ≠ s := hno h (List.getElem?_mem hh)
      refine ⟨⟨?_, hnn⟩, by simpa using hlt, List.getElem?_set_ne hhs⟩
      intro x hx
      rcases List.mem_append.mp hx with hx | hx
      · exact hno x ((List.eraseIdx_sublist _ _).subset hx)
      · exact hnn x hx
  | errMsg =>
    cases hs
    exact ⟨⟨hno, hnn⟩, hlt, rfl⟩

theorem run_noHandleFor {s : Nat} {evs : List Event} {st st' : LoopState}
    (hn : noHandleFor s st) (hlt : s < st.pending.length)
    (hr : run st evs = some st') :
    st'.pending[s]? = st.pending[s]? := by
  induction evs generalizing st with
  | nil =>
    cases hr
    rfl
  | cons ev evs ih =>
    simp only [run] at hr
    split at hr
    · cases hr
    next st1 hstep =>
      obtain ⟨hn1, hlt1, heq⟩ := stepE_noHandleFor hn hlt hstep
      rw [ih hn1 hlt1 hr, heq]

theorem blockedForever_of_noHandleFor {s : Nat} {st : LoopState}
    (hn : noHandleFor s st) (hlt : s < st.pending.length) :
    blockedForever s st :=
  fun _ _ hr => run_noHandleFor hn hlt hr

theorem run_noOverlap_bound {evs : List Event} {st st' : LoopState}
    (hb : st.outstanding.length ≤ 1) (hno : noOverlap st evs = true)
    (hr : run st evs = some st') : st'.outstanding.length ≤ 1 := by
  induction evs generalizing st with
  | nil =>
    cases hr
    exact hb
  | cons ev evs ih =>
    simp only [noOverlap, Bool.and_eq_true] at hno
    obtain ⟨hc, hrest⟩ := hno
    simp only [run] at hr
    split at hr
    · cases hr
    next st1 hstep =>
      have hno1 : noOverlap st1 evs = true := by
        rw [hstep] at hrest
        exact hrest
      have hb1 : st1.outstanding.length ≤ 1 := by
        cases ev with
        | submit p fr =>
          cases hstep
          have : st.outstanding = [] := List.isEmpty_iff.mp hc
          simp [keyEnter, this]
        | deliver k =>
          rcases deliverStep_some hstep with
            ⟨h, hh, ⟨_, he⟩ | ⟨f, rest, d, _, _, he⟩⟩
          · subst he
            exact Nat.le_trans (List.length_eraseIdx_le _ _) hb
          · subst he
            have hk : k < st.outstanding.length := by
              rcases List.getElem?_eq_some_iff.mp hh with ⟨hw, _⟩
              exact hw
            have h1 : st.outstanding.length = 1 := by omega
            have h2 : (st.outstanding.eraseIdx k).length = 0 := by
              rw [List.length_eraseIdx_of_lt hk, h1]
            have h3 : st.next.toList.length ≤ 1 := by
              cases st.next <;> simp
            simp only [List.length_append]
            omega
        | errMsg =>
          cases hstep
          exact hb
      exact ih hb1 hno1 hr

theorem run_history {evs : List Event} {st st' : LoopState}
    (hr : run st evs = some st') :
    st'.history = st.history ++ histOf evs := by
  induction evs generalizing st with
  | nil =>
    cases hr
    simp [histOf]
  | cons ev evs ih =>
    simp only [run] at hr
    split at hr
    · cases hr
    next st1 hstep =>
      have h1 := ih hr
      cases ev with
      | submit p fr =>
        cases hstep
        rw [h1]
        simp [keyEnter, histOf, List.filterMap_cons]
      | deliver k =>
        rw [h1, (deliverStep_frame hstep).1]
        simp [histOf, List.filterMap_cons]
      | errMsg =>
        cases hstep
        rw [h1]
        simp [histOf, List.filterMap_cons]

theorem drain_loop (frags : List String) :
    ∀ (d : List String) (hist : List Content) (i : Nat), i < d.length →
    run ⟨d, hist, some ⟨0, i⟩, [⟨0, i⟩], [frags]⟩
      (List.replicate (frags.length + 1) (.deliver 0)) =
    some ⟨d.set i (d.getD i "" ++ concatFrags frags), hist,
      some ⟨0, i⟩, [], [[]]⟩ := by
  induction frags with
  | nil =>
    intro d hist i hi
    have hset : d.set i (d.getD i "" ++ concatFrags []) = d := by
      rw [List.getD_eq_getElem _ _ hi]
      show d.set i (d[i] ++ "") = d
      rw [String.append_empty]
      exact set_self_getElem hi
    rw [hset]
    simp [run, stepE, deliverStep]
  | cons f rest ih =>
    intro d hist i hi
    have hstep : stepE ⟨d, hist, some ⟨0, i⟩, [⟨0, i⟩], [f :: rest]⟩
        (.deliver 0) =
        some ⟨d.set i (d[i] ++ f), hist, some ⟨0, i⟩, [⟨0, i⟩], [rest]⟩ := by
      simp [stepE, deliverStep, extendEntry_lt hi]
    rw [List.replicate_succ, run, hstep]
    have hi' : i < (d.set i (d[i] ++ f)).length := by
      simpa using hi
    show run ⟨d.set i (d[i] ++ f), hist, some ⟨0, i⟩, [⟨0, i⟩], [rest]⟩
      (List.replicate (rest.length + 1) (.deliver 0)) = _
    rw [ih (d.set i (d[i] ++ f)) hist i hi']
    have hd : (d.set i (d[i] ++ f)).set i
        ((d.set i (d[i] ++ f)).getD i "" ++ concatFrags rest) =
        d.set i (d.getD i "" ++ concatFrags (f :: rest)) := by
      rw [List.getD_eq_getElem _ _ hi', List.getD_eq_getElem _ _ hi]
      have hg : (d.set i (d[i] ++ f))[i] = d[i] ++ f :=
        List.getElem_set_self hi'
      rw [hg, List.set_set]
      show d.set i (d[i] ++ f ++ concatFrags rest) =
        d.set i (d[i] ++ (f ++ concatFrags rest))
      rw [String.append_assoc]
    rw [hd]

theorem drain_start (frags : List String) (d : List String)
    (hist : List Content) :
    run ⟨d, hist, some ⟨0, d.length⟩, [⟨0, d.length⟩], [frags]⟩
      (List.replicate (frags.length + 1) (.deliver 0)) =
    some ⟨d ++ (if frags = [] then [] else ["> " ++ concatFrags frags]), hist,
      some ⟨0, d.length⟩, [], [[]]⟩ := by
  cases frags with
  | nil =>
    simp [run, stepE, deliverStep]
  | cons f rest =>
    have hstep : stepE ⟨d, hist, some ⟨0, d.length⟩, [⟨0, d.length⟩],
        [f :: rest]⟩ (.deliver 0) =
        some ⟨d ++ ["> " ++ f], hist, some ⟨0, d.length⟩,
          [⟨0, d.length⟩], [rest]⟩ := by
      simp [stepE, deliverStep, extendEntry_eq_len]
    rw [List.replicate_succ, run, hstep]
    have hi : d.length < (d ++ ["> " ++ f]).length := by simp
    show run ⟨d ++ ["> " ++ f], hist, some ⟨0, d.length⟩, [⟨0, d.length⟩],
      [rest]⟩ (List.replicate (rest.length + 1) (.deliver 0)) = _
    rw [drain_loop rest (d ++ ["> " ++ f]) hist d.length hi]
    have hd : (d ++ ["> " ++ f]).set d.length
        ((d ++ ["> " ++ f]).getD d.length "" ++ concatFrags rest) =
        d ++ ["> " ++ concatFrags (f :: rest)] := by
      rw [List.getD_eq_getElem _ _ hi]
      have hg : (d ++ ["> " ++ f])[d.length] = "> " ++ f :=
        List.getElem_concat_length _ _ _ rfl _
      rw [hg, List.set_append_right _ _ (Nat.le_refl _)]
      show d ++ List.set ["> " ++ f] (d.length - d.length)
          ("> " ++ f ++ concatFrags rest) = _
      rw [Nat.sub_self, String.append_assoc]
      rfl
    rw [hd]
    simp

/-- C1: for a single uninterrupted stream — a submission followed by the
delivery of its N fragments and then the channel close — the final display
is the old display plus the user entry plus, when N ≥ 1, one assistant entry
holding the assistant marker followed by the concatenation of the fragments
in delivery order.  For N = 0 no fragment ever arrives, so no assistant
entry is created and the concatenation property holds vacuously. -/
theorem ordering_single_stream (prompt : String) (frags : List String) :
    (run initialModel (.submit prompt frags ::
      List.replicate (frags.length + 1) (.deliver 0))).map
      (fun st => st.display) =
    some (["? " ++ prompt] ++
      if frags = [] then [] else ["> " ++ concatFrags frags]) := by
  have hstep : stepE initialModel (.submit prompt frags) =
      some ⟨["? " ++ prompt], [NewContentFromText prompt RoleUser],
        some ⟨0, 1⟩, [⟨0, 1⟩], [frags]⟩ := rfl
  rw [run, hstep]
  show (run ⟨["? " ++ prompt], [NewContentFromText prompt RoleUser],
      some ⟨0, (["? " ++ prompt] : List String).length⟩,
      [⟨0, (["? " ++ prompt] : List String).length⟩], [frags]⟩
    (List.replicate (frags.length + 1) (.deliver 0))).map
    (fun st => st.display) = _
  rw [drain_start frags (["? " ++ prompt]) [NewContentFromText prompt RoleUser]]
  rfl

/-- C2: evaluation of the code at the failing schedule.  Prompt `"A"` is
submitted and its `readPart` command blocks on the new channel; before any
fragment arrives, prompt `"B"` is submitted.  The `keyEnter` handler for `B`
creates all of `B`'s state and replaces `m.next`, but the already-running
`readPart` goroutine of `A`'s stream is still blocked on `A`'s channel; when
`A`'s producer then sends `"F1"`, that stale read completes and the
`streamMsg` handler performs `m.display[1] += "F1"` — an `extendEntry` call
with the old stream's captured target index, executed after `B`'s submit
event was fully processed.  Index 1 now holds `B`'s user entry, which
becomes `"? BF1"`.  This contradicts the claimed disengagement (and the
README's statement that a new prompt stops the current response). -/
theorem stale_read_extends_old_index :
    (run initialModel [.submit "A" ["F1"], .submit "B" [],
      .deliver 0]).map (fun st => st.display) =
    some ["? A", "? BF1"] := by decide

/-- C3: supersession isolation.  First part: delivering a fragment through a
read command of stream A mutates only A's captured target index, and — in
any reachable state — the target index of a read command of any other
stream B is a different index, so B's (current or future) assistant entry
never receives A's fragment.  Second part: when a stream's own first
fragment arrives (its target index is one past the end of the display), the
newly created entry is exactly the assistant marker followed by that
fragment, i.e. the new prompt's assistant entry starts fresh. -/
theorem supersession_isolation :
    (∀ (evs : List Event) (st : LoopState) (k : Nat) (hA hB : ReadHandle)
      (f : String) (rest : List String) (st' : LoopState),
      run initialModel evs = some st →
      st.outstanding[k]? = some hA →
      hB ∈ handlesOf st →
      hB.stream ≠ hA.stream →
      st.pending[hA.stream]? = some (f :: rest) →
      stepE st (.deliver k) = some st' →
      st'.display[hB.index]? = st.display[hB.index]? ∧
      ∀ j, j ≠ hA.index → st'.display[j]? = st.display[j]?) ∧
    (∀ (st : LoopState) (k : Nat) (h : ReadHandle) (f : String)
      (rest : List String) (st' : LoopState),
      st.outstanding[k]? = some h →
      st.pending[h.stream]? = some (f :: rest) →
      h.index = st.display.length →
      stepE st (.deliver k) = some st' →
      st'.display[h.index]? = some ("> " ++ f)) := by
  constructor
  · intro evs st k hA hB f rest st' hr hk hBmem hne hp hs
    have hInv := inv_of_run hr
    have hAmem : hA ∈ handlesOf st :=
      List.mem_append.mpr (Or.inl (List.getElem?_mem hk))
    have hidx : hB.index ≠ hA.index :=
      hInv.2 hB hBmem hA hAmem hne
    rcases deliverStep_some hs with
      ⟨h, hh, ⟨hp', he⟩ | ⟨f', rest', d, hp', hd, he⟩⟩
    · rw [hk] at hh
      injection hh with hh
      subst hh
      rw [hp] at hp'
      cases hp'
    · rw [hk] at hh
      injection hh with hh
      subst hh
      subst he
      exact ⟨extendEntry_getElem?_ne hd hidx,
        fun j hj => extendEntry_getElem?_ne hd hj⟩
  · intro st k h f rest st' hk hp hidx hs
    rcases deliverStep_some hs with
      ⟨h', hh, ⟨hp', he⟩ | ⟨f', rest', d, hp', hd, he⟩⟩
    · rw [hk] at hh
      injection hh with hh
      subst hh
      rw [hp] at hp'
      cases hp'
    · rw [hk] at hh
      injection hh with hh
      subst hh
      subst he
      rw [hp] at hp'
      injection hp' with hl
      injection hl with hf hrest
      subst hf
      subst hrest
      rw [hidx, extendEntry_eq_len] at hd
      injection hd with hd
      subst hd
      show (st.display ++ ["> " ++ f])[h.index]? = some ("> " ++ f)
      rw [hidx]
      exact List.getElem?_concat_length _ _

/-- C3 witness: the first part instantiated on the concrete supersession
trace (A streams F1, B is submitted, then the stale F2 arrives) — B's
future assistant slot, index 3, is untouched; the second part instantiated
on B's own first fragment seeding a fresh entry. -/
theorem supersession_isolation_witness :
    (["? A", "> F1F2", "? B"] : List String)[3]? =
      (["? A", "> F1", "? B"] : List String)[3]? ∧
    (["? q", "> B1"] : List String)[1]? = some ("> " ++ "B1") := by
  constructor
  · exact (supersession_isolation.1
      [.submit "A" ["F1", "F2"], .deliver 0, .submit "B" ["B1"]]
      ⟨["? A", "> F1", "? B"],
        [NewContentFromText "A" RoleUser, NewContentFromText "B" RoleUser],
        some ⟨1, 3⟩, [⟨0, 1⟩, ⟨1, 3⟩], [["F2"], ["B1"]]⟩
      0 ⟨0, 1⟩ ⟨1, 3⟩ "F2" []
      ⟨["? A", "> F1F2", "? B"],
        [NewContentFromText "A" RoleUser, NewContentFromText "B" RoleUser],
        some ⟨1, 3⟩, [⟨1, 3⟩, ⟨1, 3⟩], [[], ["B1"]]⟩
      (by decide) (by decide) (by decide) (by decide) (by decide)
      (by decide)).1
  · exact supersession_isolation.2
      ⟨["? q"], [NewContentFromText "q" RoleUser], some ⟨0, 1⟩, [⟨0, 1⟩],
        [["B1"]]⟩
      0 ⟨0, 1⟩ "B1" []
      ⟨["? q", "> B1"], [NewContentFromText "q" RoleUser], some ⟨0, 1⟩,
        [⟨0, 1⟩], [[]]⟩
      (by decide) (by decide) (by decide) (by decide)

/-- C4 counterexample: the claim says a non-nil chunk with no candidate
content (empty `Candidates` or empty `Parts`) is skipped silently.  In the
code only the `chunk == nil` check protects the loop; a non-nil chunk with
an empty candidate list reaches `chunk.Candidates[0]`, which panics (index
out of range) inside the producer goroutine and kills the whole process —
modelled by `none`.  So the stream `["Hi", emptyChunk, " there"]` crashes
instead of delivering `"Hi there"`. -/
theorem malformed_chunk_crash :
    producerParts [textItem "Hi", ⟨some ⟨[]⟩, none⟩, textItem " there"] =
      none := by decide

/-- C4 amended: only nil chunk pointers are skipped silently.  When every
malformed chunk in the stream is nil, the surviving fragments are delivered
in order — in particular `["Hi", nil, " there"]` yields the fragment list
`["Hi", " there"]` and, fed through the event loop, the assistant text
`"> Hi there"`.  A non-nil chunk with no candidate content instead panics
the producer goroutine (see the counterexample). -/
theorem malformed_chunk_tolerance_amended :
    (∀ items : List StreamItem, (∀ it ∈ items, safeItem it = true) →
      producerParts items = some (itemTexts items)) ∧
    producerParts [textItem "Hi", nilItem, textItem " there"] =
      some ["Hi", " there"] ∧
    (run initialModel [.submit "greet" ["Hi", " there"], .deliver 0,
      .deliver 0, .deliver 0]).map (fun st => st.display) =
    some ["? greet", "> Hi there"] := by
  refine ⟨?_, by decide, by decide⟩
  intro items hsafe
  induction items with
  | nil => rfl
  | cons it rest ih =>
    have hit : safeItem it = true := hsafe it (List.mem_cons_self _ _)
    have hrest : ∀ x ∈ rest, safeItem x = true :=
      fun x hx => hsafe x (List.mem_cons_of_mem _ hx)
    cases hc : it.chunk with
    | none =>
      simp [producerParts, itemTexts, hc, ih hrest, List.filterMap_cons]
    | some c =>
      have hsome : (chunkText c).isSome := by
        simpa [safeItem, hc] using hit
      rcases Option.isSome_iff_exists.mp hsome with ⟨t, ht⟩
      simp [producerParts, itemTexts, hc, ht, ih hrest, List.filterMap_cons]

/-- C4 amended witness: the general tolerance statement instantiated on the
claim's own example stream. -/
theorem malformed_chunk_tolerance_amended_witness :
    producerParts [textItem "Hi", nilItem, textItem " there"] =
      some (itemTexts [textItem "Hi", nilItem, textItem " there"]) :=
  malformed_chunk_tolerance_amended.1 _ (by decide)

/-- C5 counterexample: a mid-stream transport failure is silently swallowed.
The iterator yields `(nil, err)`; the producer's `for chunk, _ := range`
discards the error and the nil-chunk guard skips the element, so only
`"Hi"` is sent and the channel closes normally.  The final loop state shows
no error entry in the transcript (and the `errMsg` event, which nothing in
the program ever produces, changes nothing), contradicting the claim that
an assistant-role error entry is appended. -/
theorem error_swallowed :
    producerParts [textItem "Hi", ⟨none, some "network failure"⟩] =
      some ["Hi"] ∧
    run initialModel [.submit "p" ["Hi"], .deliver 0, .deliver 0,
      .errMsg] =
    some ⟨["? p", "> Hi"], [NewContentFromText "p" RoleUser], some ⟨0, 1⟩,
      [], [[]]⟩ := by
  exact ⟨by decide, by decide⟩

/-- C5 amended: a stream failure is discarded, not surfaced.  The producer
never inspects the error component of the iterator (its output is invariant
under erasing all error values), the `errMsg` handler returns the model
unchanged — appending no transcript entry — and the loop keeps accepting
submissions (a submit event always succeeds), so the loop does continue and
a new prompt can be sent, but no visible error marker is ever produced. -/
theorem error_discarded_amended :
    (∀ items : List StreamItem,
      producerParts items =
        producerParts (items.map (fun it => ⟨it.chunk, none⟩))) ∧
    (∀ st : LoopState, stepE st .errMsg = some st) ∧
    (∀ (st : LoopState) (p : String) (fr : List String),
      stepE st (.submit p fr) = some (keyEnter st p fr)) := by
  refine ⟨?_, fun st => rfl, fun st p fr => rfl⟩
  intro items
  induction items with
  | nil => rfl
  | cons it rest ih =>
    cases hc : it.chunk with
    | none => simpa [producerParts, hc] using ih
    | some c =>
      cases ht : chunkText c with
      | none => simp [producerParts, hc, ht]
      | some t => simpa [producerParts, hc, ht] using congrArg (Option.map (t :: ·)) ih

/-- C6 counterexample: at most one outstanding read is claimed, but after a
supersession two read commands are outstanding at once (the old stream's
blocked read plus the new one), and once the stale read completes the
`streamMsg` handler re-issues `m.next` while the copy issued at submission
is still blocked — two concurrent readers on the new stream's channel
(both handles name stream 1). -/
theorem double_reader :
    (run initialModel [.submit "A" ["F1", "F2"],
      .submit "B" ["B1", "B2"]]).map (fun st => st.outstanding) =
      some [⟨0, 1⟩, ⟨1, 2⟩] ∧
    (run initialModel [.submit "A" ["F1", "F2"],
      .submit "B" ["B1", "B2"], .deliver 0]).map (fun st => st.outstanding) =
      some [⟨1, 2⟩, ⟨1, 2⟩] := by
  exact ⟨by decide, by decide⟩

/-- C6 amended: as long as no prompt is submitted while a read command is
outstanding (no supersession), at most one fragment-read request exists at
any time.  Supersession breaks the claim: the old read stays outstanding
next to the new one, and a stale completion duplicates the new stream's
reader (see the counterexample). -/
theorem single_reader_amended (evs : List Event) (st : LoopState) :
    noOverlap initialModel evs = true →
    run initialModel evs = some st →
    st.outstanding.length ≤ 1 :=
  fun hno hr => run_noOverlap_bound (by simp [initialModel]) hno hr

/-- C6 amended witness: the bound on a concrete non-overlapping run. -/
theorem single_reader_amended_witness :
    noOverlap initialModel [.submit "p" ["x"], .deliver 0, .deliver 0] =
      true ∧
    (⟨["? p", "> x"], [NewContentFromText "p" RoleUser], some ⟨0, 1⟩, [],
      [[]]⟩ : LoopState).outstanding.length ≤ 1 :=
  ⟨by decide, single_reader_amended
    [.submit "p" ["x"], .deliver 0, .deliver 0] _ (by decide) (by decide)⟩

/-- C7 counterexample: the abandoned producer goroutine does leak.  After
prompt A delivers F1, prompt B supersedes it; the single stale outstanding
read then consumes F2, and from the resulting state no read command for
stream 0 exists or can ever be created again, so A's producer — still
holding F3 — stays blocked on its unbuffered channel send forever
(`blockedForever`): it is neither drained to completion nor cancelled. -/
theorem producer_starved :
    run initialModel [.submit "A" ["F1", "F2", "F3"], .deliver 0,
      .submit "B" [], .deliver 0] =
    some ⟨["? A", "> F1F2", "? B"],
      [NewContentFromText "A" RoleUser, NewContentFromText "B" RoleUser],
      some ⟨1, 3⟩, [⟨1, 3⟩, ⟨1, 3⟩], [["F3"], []]⟩ ∧
    blockedForever 0 ⟨["? A", "> F1F2", "? B"],
      [NewContentFromText "A" RoleUser, NewContentFromText "B" RoleUser],
      some ⟨1, 3⟩, [⟨1, 3⟩, ⟨1, 3⟩], [["F3"], []]⟩ :=
  ⟨by decide, blockedForever_of_noHandleFor (by decide) (by decide)⟩

/-- C7 amended: once the loop holds no read command for a stream — which
after a supersession happens as soon as the single stale outstanding read
has completed — none is ever created again, so the stream's remaining
fragments are never consumed in any continuation of the run: the abandoned
producer blocks forever on its channel send and the goroutine leaks. -/
theorem abandoned_producer_leaks_amended (s : Nat) (st : LoopState) :
    noHandleFor s st → s < st.pending.length → blockedForever s st :=
  fun hn hlt => blockedForever_of_noHandleFor hn hlt

/-- C7 amended witness: the starvation statement applied to the concrete
post-supersession state in which stream 0 still has fragment F3 pending. -/
theorem abandoned_producer_leaks_amended_witness :
    (⟨["? A", "> F1F2", "? B"],
      [NewContentFromText "A" RoleUser, NewContentFromText "B" RoleUser],
      some ⟨1, 3⟩, [⟨1, 3⟩, ⟨1, 3⟩],
      [["F3"], []]⟩ : LoopState).pending[0]? = some ["F3"] ∧
    blockedForever 0 ⟨["? A", "> F1F2", "? B"],
      [NewContentFromText "A" RoleUser, NewContentFromText "B" RoleUser],
      some ⟨1, 3⟩, [⟨1, 3⟩, ⟨1, 3⟩], [["F3"], []]⟩ :=
  ⟨by decide, abandoned_producer_leaks_amended 0 _ (by decide) (by decide)⟩

/-- C8 counterexample: for an index strictly greater than the current
display length the claim requires a graceful failure or a no-op; the code
instead evaluates `m.display[msg.index] += msg.part` on an out-of-range
index, a Go runtime panic (modelled by `none`) — a crash, not a no-op. -/
theorem extendEntry_panics :
    extendEntry ["? p"] 2 "x" = none := by decide

/-- C8 amended: the three-way characterisation of the handler.  An in-range
index appends the fragment to the existing entry; an index exactly one past
the end auto-creates a fresh assistant entry seeded with the marker and the
fragment; an index strictly past that would panic.  The panic branch is
unreachable in the program: in every reachable loop state, every read
command's captured index is at most the current display length. -/
theorem extendEntry_cases_amended :
    (∀ (d : List String) (i : Nat) (p : String) (h : i < d.length),
      extendEntry d i p = some (d.set i (d[i] ++ p))) ∧
    (∀ (d : List String) (p : String),
      extendEntry d d.length p = some (d ++ ["> " ++ p])) ∧
    (∀ (d : List String) (i : Nat) (p : String), d.length < i →
      extendEntry d i p = none) ∧
    (∀ (evs : List Event) (st : LoopState), run initialModel evs = some st →
      ∀ h ∈ handlesOf st, h.index ≤ st.display.length) := by
  refine ⟨fun d i p h => extendEntry_lt h,
    fun d p => extendEntry_eq_len d p,
    fun d i p h => extendEntry_gt h, ?_⟩
  intro evs st hr h hh
  exact ((inv_of_run hr).1 h hh).1

/-- C8 amended witness: the three cases evaluated at concrete inputs, and
the reachable-index bound at the state after one submission. -/
theorem extendEntry_cases_amended_witness :
    extendEntry ["> a"] 0 "b" = some ["> ab"] ∧
    extendEntry ["? p"] 1 "x" = some ["? p", "> x"] ∧
    extendEntry ["? p"] 2 "x" = none ∧
    (1 : Nat) ≤ (⟨["? p"], [NewContentFromText "p" RoleUser], some ⟨0, 1⟩,
      [⟨0, 1⟩], [["x"]]⟩ : LoopState).display.length := by
  refine ⟨?_, ?_, ?_, ?_⟩
  · exact (extendEntry_cases_amended.1 ["> a"] 0 "b" (by decide)).trans
      (by decide)
  · exact (extendEntry_cases_amended.2.1 ["? p"] "x").trans (by decide)
  · exact extendEntry_cases_amended.2.2.1 ["? p"] 2 "x" (by decide)
  · exact extendEntry_cases_amended.2.2.2 [.submit "p" ["x"]] _ (by decide)
      ⟨0, 1⟩ (by decide)

/-- C9 counterexample: after the scenario prompt `"2+2?"` streams the reply
`"4"` to completion (no outstanding read remains), the transcript shows the
assistant reply but the model's history list holds only the user prompt —
the completed assistant reply was never appended to it. -/
theorem history_missing_reply :
    run initialModel [.submit "2+2?" ["4"], .deliver 0, .deliver 0] =
    some ⟨["? 2+2?", "> 4"], [NewContentFromText "2+2?" RoleUser],
      some ⟨0, 1⟩, [], [[]]⟩ := by decide

/-- C9 amended: the history list receives exactly one user-role entry per
submission and nothing else — after any run it equals the user prompts of
the submissions in order, and every entry in it has the user role, so a
completed assistant reply is never appended to the history (only to the
rendered transcript). -/
theorem history_user_only_amended (evs : List Event) (st : LoopState) :
    run initialModel evs = some st →
    st.history = histOf evs ∧ ∀ c ∈ st.history, c.role = RoleUser := by
  intro hr
  have h1 : st.history = histOf evs := by
    have h2 := run_history hr
    simpa [initialModel] using h2
  refine ⟨h1, ?_⟩
  intro c hc
  rw [h1] at hc
  rcases List.mem_filterMap.mp hc with ⟨ev, _, hev⟩
  cases ev with
  | submit p fr =>
    simp only [NewContentFromText, Option.some.injEq] at hev
    rw [← hev]
  | deliver k => cases hev
  | errMsg => cases hev

/-- C9 amended witness: the history characterisation evaluated on the
completed scenario run. -/
theorem history_user_only_amended_witness :
    (⟨["? 2+2?", "> 4"], [NewContentFromText "2+2?" RoleUser], some ⟨0, 1⟩,
      [], [[]]⟩ : LoopState).history =
      histOf [.submit "2+2?" ["4"], .deliver 0, .deliver 0] :=
  (history_user_only_amended [.submit "2+2?" ["4"], .deliver 0, .deliver 0]
    _ (by decide)).1

/-- C10 counterexample: after A's stream has already created its assistant
entry and B supersedes A, the stale delivery of A's second fragment mutates
entry 1 of a three-entry display — not the trailing entry (index 2).  And
when A had produced nothing before the supersession, the stale fragment
mutates B's user entry (third equation), so the mutated mid-stream entry is
neither trailing nor an assistant entry, refuting the parenthetical of the
claim. -/
theorem stale_mutation_non_trailing :
    (run initialModel [.submit "A" ["F1", "F2"], .deliver 0,
      .submit "B" ["B1"]]).map (fun st => st.display) =
      some ["? A", "> F1", "? B"] ∧
    (run initialModel [.submit "A" ["F1", "F2"], .deliver 0,
      .submit "B" ["B1"], .deliver 0]).map (fun st => st.display) =
      some ["? A", "> F1F2", "? B"] ∧
    (run initialModel [.submit "A" ["F1"], .submit "B" ["B1"],
      .deliver 0]).map (fun st => st.display) =
      some ["? A", "? BF1"] := by
  exact ⟨by decide, by decide, by decide⟩

/-- C10 amended: the transcript is append-only under every event handler —
no entry is removed or reordered, an index once assigned keeps denoting the
same entry, and each existing entry's old text is a prefix of its new text
after any step — and each stream update mutates only its explicitly
targeted index (the captured one); that index is the trailing assistant
entry in the absence of supersession, but a stale post-supersession
fragment may target an earlier (non-trailing, possibly user) entry. -/
theorem append_only_amended (st : LoopState) (ev : Event) (st' : LoopState) :
    stepE st ev = some st' →
    (∀ (i : Nat) (s : String), st.display[i]? = some s →
      ∃ u, st'.display[i]? = some (s ++ u)) ∧
    (∀ (k : Nat) (h : ReadHandle), ev = .deliver k →
      st.outstanding[k]? = some h →
      ∀ j, j ≠ h.index → st'.display[j]? = st.display[j]?) := by
  intro hs
  constructor
  · intro i s hi
    cases ev with
    | submit p fr =>
      cases hs
      refine ⟨"", ?_⟩
      rw [String.append_empty]
      have hlt : i < st.display.length := (List.getElem?_eq_some_iff.mp hi).1
      show (st.display ++ ["? " ++ p])[i]? = some s
      rw [List.getElem?_append_left hlt]
      exact hi
    | deliver k =>
      rcases deliverStep_some hs with
        ⟨h, hh, ⟨_, he⟩ | ⟨f, rest, d, hp, hd, he⟩⟩
      · subst he
        exact ⟨"", by rw [String.append_empty]; exact hi⟩
      · subst he
        exact extendEntry_prefix hd hi
    | errMsg =>
      cases hs
      exact ⟨"", by rw [String.append_empty]; exact hi⟩
  · intro k h hev hk j hj
    subst hev
    rcases deliverStep_some hs with
      ⟨h', hh', ⟨_, he⟩ | ⟨f, rest, d, hp, hd, he⟩⟩
    · subst he
      rfl
    · rw [hk] at hh'
      injection hh' with e
      subst e
      subst he
      exact extendEntry_getElem?_ne hd hj

/-- C10 amended witness: the stale delivery of A's F2 leaves every other
index unchanged — here index 2, B's user entry, read back unchanged. -/
theorem append_only_amended_witness :
    (⟨["? A", "> F1F2", "? B"],
      [NewContentFromText "A" RoleUser, NewContentFromText "B" RoleUser],
      some ⟨1, 3⟩, [⟨1, 3⟩, ⟨1, 3⟩],
      [[], ["B1"]]⟩ : LoopState).display[2]? =
    (⟨["? A", "> F1", "? B"],
      [NewContentFromText "A" RoleUser, NewContentFromText "B" RoleUser],
      some ⟨1, 3⟩, [⟨0, 1⟩, ⟨1, 3⟩],
      [["F2"], ["B1"]]⟩ : LoopState).display[2]? :=
  (append_only_amended
    ⟨["? A", "> F1", "? B"],
      [NewContentFromText "A" RoleUser, NewContentFromText "B" RoleUser],
      some ⟨1, 3⟩, [⟨0, 1⟩, ⟨1, 3⟩], [["F2"], ["B1"]]⟩
    (.deliver 0)
    ⟨["? A", "> F1F2", "? B"],
      [NewContentFromText "A" RoleUser, NewContentFromText "B" RoleUser],
      some ⟨1, 3⟩, [⟨1, 3⟩, ⟨1, 3⟩], [[], ["B1"]]⟩
    (by decide)).2 0 ⟨0, 1⟩ rfl (by decide) 2 (by decide)

end Gemini
